import Mathlib

/-!
Shallow embedding of the growable buffer `SimpleVec<T>` implemented in
`src/rust/高级/08 Rust不安全编程.rs` (function `memory_utilities`, lines
203-293), together with proofs of the specification's claims about it.

Modelling decisions:

* The backing heap block is modelled by the field `data : List (Option T)`:
  one entry per allocated slot, `none` for an uninitialized slot, `some x`
  for a slot holding the live value `x`.  The block address is the abstract
  `ptr : Nat`, with address `0` playing the role of the null pointer.
* The process allocator (`std::alloc::{alloc, realloc}`) is an external
  collaborator; it is modelled as a parameter of type `Allocator` whose
  calls return an address, `0` meaning allocation failure (a null result).
  `realloc`'s contract preserves the first `min(old, new)` bytes, which the
  model expresses by carrying the old slot contents over (`reallocData`).
* Rust panics (`unwrap` of a failed `Layout::array`, and the explicit
  `panic!("内存分配失败")` after a null allocation result) are modelled by
  `Except`: an `error` result carries the panic kind together with the
  buffer state as it is at the panic point (in the source, both panics in
  `grow` happen before any field of `self` is assigned).
* `Layout::array::<T>(n)` on a 64-bit platform: the element size is
  `size_of::<T>() = sz` and the alignment `align_of::<T>() = al`; the call
  fails iff `sz * n` overflows `usize` or the resulting size exceeds
  `isize::MAX - (al - 1)`.  Over `Nat` the first condition is subsumed by
  the second (`usizeMax > isizeMax ≥ isizeMax - (al - 1)`), so a single
  bound check is an exact translation.
* Machine integers (`usize`) are modelled as `Nat`; none of the modelled
  arithmetic wraps in the source (`len`/`capacity` arithmetic stays far
  below `usize::MAX` whenever the layout computation succeeds, and the
  layout computation itself is checked).
* Reading a slot past the live range and writing past the allocated block
  are undefined behavior in the source; the model makes the read return the
  slot content (`none` when uninitialized) and the write a no-op.  All
  theorems below are stated on states where this difference is invisible
  (slots below `len` initialized, `len ≤ capacity = data.length`).
-/

/-- Allocator Adapter: the external process allocator.  `alloc size align`
and `realloc ptr oldSize align newSize` return the address of the block, a
result of `0` standing for the null pointer (allocation failure). -/
structure Allocator where
  alloc : Nat → Nat → Nat
  realloc : Nat → Nat → Nat → Nat → Nat

/-- Panic kinds of the buffer core: `capacityOverflow` is the `unwrap` of a
failed `Layout::array`, `allocationFailure` is `panic!("内存分配失败")`. -/
inductive VecError : Type where
  | capacityOverflow : VecError
  | allocationFailure : VecError
deriving DecidableEq, Repr

/-- Largest value of `usize` on a 64-bit platform. -/
def usizeMax : Nat := 2 ^ 64 - 1

/-- Largest value of `isize` on a 64-bit platform. -/
def isizeMax : Nat := 2 ^ 63 - 1

/-- Model of `std::alloc::Layout::array::<T>(n)` for an element type of
size `sz` and alignment `al`: returns the byte size `sz * n` of the array
layout, or `none` exactly when the checked computation fails (the `Err`
case that the source `unwrap`s).  Over `Nat` the `usize` multiplication
overflow check of the source is subsumed by the `isize::MAX` size bound. -/
def layoutArray (sz al n : Nat) : Option Nat :=
  if sz * n ≤ isizeMax - (al - 1) then some (sz * n) else none

/-- The buffer `SimpleVec<T>` of the source: a raw pointer `ptr`, the
number `len` of live elements and the number `capacity` of allocated
slots.  The field `data` models the contents of the backing block (one
entry per allocated slot); it is not a separate run-time field.  The
source method `len()` is the field projection `len`. -/
structure SimpleVec (T : Type) where
  ptr : Nat
  data : List (Option T)
  len : Nat
  capacity : Nat
deriving DecidableEq, Repr

/-- Read of the slot at index `i` of a backing block (`ptr::read` /
`&*ptr.add i`): the slot content, `none` when uninitialized or outside the
block (undefined behavior in the source). -/
def readSlot {T : Type} (d : List (Option T)) (i : Nat) : Option T :=
  (d[i]?).getD none

/-- Write of value `x` into the slot at index `i` (`ptr::write`): a no-op
outside the block (undefined behavior in the source). -/
def writeSlot {T : Type} (d : List (Option T)) (i : Nat) (x : T) : List (Option T) :=
  d.set i (some x)

/-- Contents of the block returned by `realloc` grown to `newCap` slots:
the first `min(old, new)` slots are preserved, the rest is uninitialized. -/
def reallocData {T : Type} (d : List (Option T)) (newCap : Nat) : List (Option T) :=
  (d ++ List.replicate (newCap - d.length) none).take newCap

/-- `SimpleVec::new()`: empty buffer, no allocation; the dangling pointer
`NonNull::dangling()` is the alignment address `al`. -/
def SimpleVec.new {T : Type} (al : Nat) : SimpleVec T :=
  { ptr := al, data := [], len := 0, capacity := 0 }

/-- The `new_capacity` computed by `SimpleVec::grow`: `1` if the capacity
is `0`, else twice the capacity. -/
def SimpleVec.newCapacity {T : Type} (v : SimpleVec T) : Nat :=
  if v.capacity = 0 then 1 else v.capacity * 2

/-- The allocator call of `SimpleVec::grow`: `alloc(new_layout)` when
`capacity == 0`, otherwise `realloc(ptr, old_layout, new_layout.size())`
where `old_layout = Layout::array::<T>(capacity).unwrap()`.  Returns the
new address together with the modelled contents of the returned block. -/
def SimpleVec.growAlloc {T : Type} (Al : Allocator) (sz al : Nat) (v : SimpleVec T)
    (newSize : Nat) : Except (VecError × SimpleVec T) (Nat × List (Option T)) :=
  if v.capacity = 0 then
    Except.ok (Al.alloc newSize al, List.replicate v.newCapacity (none : Option T))
  else
    match layoutArray sz al v.capacity with
    | none => Except.error (VecError.capacityOverflow, v)
    | some oldSize =>
        Except.ok (Al.realloc v.ptr oldSize al newSize, reallocData v.data v.newCapacity)

/-- `SimpleVec::grow`: compute `new_capacity`, `unwrap` the new layout
(panicking with `capacityOverflow` on failure), call the allocator, panic
with `allocationFailure` if the returned pointer is null, and only then
assign `self.ptr` and `self.capacity`.  An `error` result carries the
state at the panic point. -/
def SimpleVec.grow {T : Type} (Al : Allocator) (sz al : Nat) (v : SimpleVec T) :
    Except (VecError × SimpleVec T) (SimpleVec T) :=
  match layoutArray sz al v.newCapacity with
  | none => Except.error (VecError.capacityOverflow, v)
  | some newSize =>
      match v.growAlloc Al sz al newSize with
      | Except.error e => Except.error e
      | Except.ok (newPtr, newData) =>
          if newPtr = 0 then Except.error (VecError.allocationFailure, v)
          else Except.ok { v with ptr := newPtr, data := newData, capacity := v.newCapacity }

/-- `SimpleVec::push`: grow when `len == capacity`, then
`ptr::write(ptr.add(len), element)` and `len += 1`. -/
def SimpleVec.push {T : Type} (Al : Allocator) (sz al : Nat) (v : SimpleVec T) (x : T) :
    Except (VecError × SimpleVec T) (SimpleVec T) :=
  match (if v.len = v.capacity then v.grow Al sz al else Except.ok v) with
  | Except.error e => Except.error e
  | Except.ok v1 =>
      Except.ok { v1 with data := writeSlot v1.data v1.len x, len := v1.len + 1 }

/-- `SimpleVec::pop`: `None` when `len == 0`, otherwise decrement `len`
and `ptr::read` the slot at the new `len`.  Returns the read value and the
updated buffer. -/
def SimpleVec.pop {T : Type} (v : SimpleVec T) : Option T × SimpleVec T :=
  if v.len = 0 then (none, v)
  else (readSlot v.data (v.len - 1), { v with len := v.len - 1 })

/-- `SimpleVec::get`: a reference to the slot at `index` when
`index < len`, `None` otherwise. -/
def SimpleVec.get {T : Type} (v : SimpleVec T) (index : Nat) : Option T :=
  if index < v.len then readSlot v.data index else none

/-- The `while let Some(_) = self.pop() {}` loop of `Drop::drop`, with
fuel: returns the popped (destructed) values in pop order and the final
state.  Fuel `v.len` makes the fuel-free source loop and this one agree on
every state whose live slots are initialized. -/
def SimpleVec.popLoop {T : Type} : Nat → SimpleVec T → List T × SimpleVec T
  | 0, v => ([], v)
  | fuel + 1, v =>
      match v.pop with
      | (some x, v1) =>
          let r := SimpleVec.popLoop fuel v1
          (x :: r.1, r.2)
      | (none, v1) => ([], v1)

/-- Observable trace of `Drop::drop`: the destructed values in destruction
order, the buffer state after the loop, and the single `dealloc` call as
`some (address, byte size, alignment)` — or `none` when no deallocation
happened. -/
structure DropTrace (T : Type) where
  destructed : List T
  final : SimpleVec T
  freed : Option (Nat × Nat × Nat)
deriving DecidableEq, Repr

/-- `Drop::drop` for `SimpleVec`: pop (destructing) until empty, then, if
`capacity != 0`, `dealloc(ptr, Layout::array::<T>(capacity).unwrap())`.
The layout `unwrap` can in principle panic, hence the `Except`. -/
def SimpleVec.dropVec {T : Type} (sz al : Nat) (v : SimpleVec T) :
    Except (VecError × SimpleVec T) (DropTrace T) :=
  let r := SimpleVec.popLoop v.len v
  if r.2.capacity = 0 then Except.ok ⟨r.1, r.2, none⟩
  else
    match layoutArray sz al r.2.capacity with
    | none => Except.error (VecError.capacityOverflow, r.2)
    | some s => Except.ok ⟨r.1, r.2, some (r.2.ptr, s, al)⟩

/-- Iterated push, from the test driver pattern (`vec.push(1); …`). -/
def pushAll {T : Type} (Al : Allocator) (sz al : Nat) :
    SimpleVec T → List T → Except (VecError × SimpleVec T) (SimpleVec T)
  | v, [] => Except.ok v
  | v, x :: xs =>
      match SimpleVec.push Al sz al v x with
      | Except.error e => Except.error e
      | Except.ok v1 => pushAll Al sz al v1 xs

/-- Iterated pop: the list of the `n` results of `pop` in call order,
together with the final state. -/
def popN {T : Type} : SimpleVec T → Nat → List (Option T) × SimpleVec T
  | v, 0 => ([], v)
  | v, n + 1 =>
      let r := v.pop
      let r2 := popN r.2 n
      (r.1 :: r2.1, r2.2)

/-- Abstraction relation: the buffer `v` holds exactly the values of `l`,
bottom of the stack first, in its live slots, and is well formed
(`len ≤ capacity`, one `data` entry per allocated slot). -/
def HasContents {T : Type} (v : SimpleVec T) (l : List T) : Prop :=
  v.len = l.length ∧ v.len ≤ v.capacity ∧ v.data.length = v.capacity ∧
    ∀ i, i < l.length → readSlot v.data i = l[i]?

/-- States reachable from `SimpleVec::new()` by the mutating operations of
the public interface (successful `push`, `pop`) and by the internal
`grow`. -/
inductive Reach {T : Type} (Al : Allocator) (sz al : Nat) : SimpleVec T → Prop where
  | new : Reach Al sz al (SimpleVec.new al)
  | push (v v' : SimpleVec T) (x : T) : Reach Al sz al v →
      SimpleVec.push Al sz al v x = Except.ok v' → Reach Al sz al v'
  | grow (v v' : SimpleVec T) : Reach Al sz al v →
      SimpleVec.grow Al sz al v = Except.ok v' → Reach Al sz al v'
  | pop (v : SimpleVec T) : Reach Al sz al v → Reach Al sz al v.pop.2

/-! Helper lemmas about slot reads and writes. -/

theorem length_writeSlot {T : Type} (d : List (Option T)) (i : Nat) (x : T) :
    (writeSlot d i x).length = d.length := by
  simp [writeSlot]

theorem readSlot_writeSlot_self {T : Type} {d : List (Option T)} {i : Nat} (x : T)
    (h : i < d.length) : readSlot (writeSlot d i x) i = some x := by
  simp [readSlot, writeSlot, List.getElem?_set_self h]

theorem readSlot_writeSlot_ne {T : Type} {d : List (Option T)} {i j : Nat} (x : T)
    (h : i ≠ j) : readSlot (writeSlot d i x) j = readSlot d j := by
  simp [readSlot, writeSlot, List.getElem?_set_ne h]

theorem length_reallocData {T : Type} (d : List (Option T)) (c : Nat) :
    (reallocData d c).length = c := by
  simp [reallocData]
  omega

theorem readSlot_reallocData {T : Type} {d : List (Option T)} {c i : Nat}
    (h1 : i < d.length) (h2 : i < c) : readSlot (reallocData d c) i = readSlot d i := by
  simp [reallocData, readSlot, List.getElem?_take_of_lt h2, List.getElem?_append_left h1]

/-! Helper lemmas about `grow`. -/

theorem capacity_lt_newCapacity {T : Type} (v : SimpleVec T) :
    v.capacity < v.newCapacity := by
  unfold SimpleVec.newCapacity
  split <;> omega

theorem growAlloc_ok {T : Type} {Al : Allocator} {sz al ns : Nat} {v : SimpleVec T}
    {p : Nat} {d : List (Option T)}
    (h : SimpleVec.growAlloc Al sz al v ns = Except.ok (p, d)) :
    d.length = v.newCapacity ∧
      (v.capacity = 0 ∧ d = List.replicate v.newCapacity none ∨
        v.capacity ≠ 0 ∧ d = reallocData v.data v.newCapacity) := by
  unfold SimpleVec.growAlloc at h
  by_cases hc : v.capacity = 0
  · simp only [hc, if_true] at h
    simp only [Except.ok.injEq, Prod.mk.injEq] at h
    obtain ⟨-, hd⟩ := h
    subst hd
    exact ⟨by simp, Or.inl ⟨hc, rfl⟩⟩
  · cases hl : layoutArray sz al v.capacity with
    | none => simp [hc, hl] at h
    | some os =>
        simp only [hc, if_false, hl, Except.ok.injEq, Prod.mk.injEq] at h
        obtain ⟨-, hd⟩ := h
        subst hd
        exact ⟨length_reallocData _ _, Or.inr ⟨hc, rfl⟩⟩

theorem grow_ok_cases {T : Type} {Al : Allocator} {sz al : Nat} {v v' : SimpleVec T}
    (h : SimpleVec.grow Al sz al v = Except.ok v') :
    ∃ p d ns, layoutArray sz al v.newCapacity = some ns ∧
      SimpleVec.growAlloc Al sz al v ns = Except.ok (p, d) ∧ p ≠ 0 ∧
      v' = { v with ptr := p, data := d, capacity := v.newCapacity } := by
  unfold SimpleVec.grow at h
  split at h
  · simp at h
  · rename_i ns hl
    split at h
    · simp at h
    · rename_i p d hg
      split at h
      · simp at h
      · rename_i hp
        exact ⟨p, d, ns, hl, hg, hp, (Except.ok.inj h).symm⟩

theorem grow_ok_fields {T : Type} {Al : Allocator} {sz al : Nat} {v v' : SimpleVec T}
    (h : SimpleVec.grow Al sz al v = Except.ok v') :
    v'.capacity = v.newCapacity ∧ v'.len = v.len ∧ v'.data.length = v.newCapacity := by
  obtain ⟨p, d, ns, hl, hg, hp, rfl⟩ := grow_ok_cases h
  exact ⟨rfl, rfl, (growAlloc_ok hg).1⟩

theorem grow_ok_read {T : Type} {Al : Allocator} {sz al : Nat} {v v' : SimpleVec T}
    (hlen : v.len ≤ v.capacity) (hdata : v.data.length = v.capacity)
    (h : SimpleVec.grow Al sz al v = Except.ok v') :
    ∀ i, i < v.len → readSlot v'.data i = readSlot v.data i := by
  obtain ⟨p, d, ns, hl, hg, hp, rfl⟩ := grow_ok_cases h
  intro i hi
  rcases (growAlloc_ok hg).2 with ⟨hc0, hd⟩ | ⟨hc0, hd⟩
  · omega
  · subst hd
    exact readSlot_reallocData (by omega)
      (lt_of_le_of_lt (lt_of_lt_of_le hi hlen).le (capacity_lt_newCapacity v))

/-! Abstraction lemmas: how the operations act on the list of live values. -/

/-- Intermediate state of `push` after a possible `grow`: like
`HasContents`, but with a free slot available (`len < capacity`). -/
def ReadyFor {T : Type} (v : SimpleVec T) (l : List T) : Prop :=
  v.len = l.length ∧ v.len < v.capacity ∧ v.data.length = v.capacity ∧
    ∀ i, i < l.length → readSlot v.data i = l[i]?

theorem ready_of_not_full {T : Type} {v : SimpleVec T} {l : List T}
    (hc : HasContents v l) (hne : v.len ≠ v.capacity) : ReadyFor v l :=
  ⟨hc.1, lt_of_le_of_ne hc.2.1 hne, hc.2.2.1, hc.2.2.2⟩

theorem ready_of_grow {T : Type} {Al : Allocator} {sz al : Nat} {v v1 : SimpleVec T}
    {l : List T} (hc : HasContents v l) (hfull : v.len = v.capacity)
    (hg : SimpleVec.grow Al sz al v = Except.ok v1) : ReadyFor v1 l := by
  obtain ⟨hcap, hlen, hdata⟩ := grow_ok_fields hg
  refine ⟨hlen.trans hc.1, ?_, by rw [hdata, hcap], ?_⟩
  · rw [hlen, hcap]
    exact lt_of_le_of_lt (le_of_eq hfull) (capacity_lt_newCapacity v)
  · intro i hi
    have h1 := hc.1
    rw [grow_ok_read hc.2.1 hc.2.2.1 hg i (by omega)]
    exact hc.2.2.2 i hi

theorem write_step {T : Type} {v1 : SimpleVec T} {l : List T} (x : T)
    (hr : ReadyFor v1 l) :
    HasContents { v1 with data := writeSlot v1.data v1.len x, len := v1.len + 1 } (l ++ [x]) := by
  obtain ⟨hlen, hlt, hdata, hread⟩ := hr
  refine ⟨by simp [hlen], by simpa using hlt, by simp [length_writeSlot, hdata], ?_⟩
  intro i hi
  simp only [List.length_append, List.length_cons, List.length_nil] at hi
  by_cases heq : i = l.length
  · subst heq
    rw [show readSlot (writeSlot v1.data v1.len x) l.length = some x from
      hlen ▸ readSlot_writeSlot_self x (by omega), List.getElem?_concat_length]
  · have hil : i < l.length := by omega
    rw [readSlot_writeSlot_ne x (by omega), List.getElem?_append_left hil]
    exact hread i hil

theorem push_contents {T : Type} {Al : Allocator} {sz al : Nat} {v v' : SimpleVec T}
    {l : List T} {x : T} (hc : HasContents v l)
    (h : SimpleVec.push Al sz al v x = Except.ok v') : HasContents v' (l ++ [x]) := by
  unfold SimpleVec.push at h
  by_cases hfull : v.len = v.capacity
  · rw [if_pos hfull] at h
    cases hg : SimpleVec.grow Al sz al v with
    | error e => rw [hg] at h; simp at h
    | ok v1 =>
        rw [hg] at h
        cases h
        exact write_step x (ready_of_grow hc hfull hg)
  · rw [if_neg hfull] at h
    cases h
    exact write_step x (ready_of_not_full hc hfull)

theorem pushAll_contents {T : Type} {Al : Allocator} {sz al : Nat} {v v' : SimpleVec T}
    {l : List T} {xs : List T} (hc : HasContents v l)
    (h : pushAll Al sz al v xs = Except.ok v') : HasContents v' (l ++ xs) := by
  induction xs generalizing v l with
  | nil =>
      unfold pushAll at h
      cases h
      simpa using hc
  | cons x xs ih =>
      unfold pushAll at h
      cases hp : SimpleVec.push Al sz al v x with
      | error e => rw [hp] at h; simp at h
      | ok v1 =>
          rw [hp] at h
          have := ih (push_contents hc hp) h
          simpa using this

theorem new_contents {T : Type} (al : Nat) : HasContents (SimpleVec.new al : SimpleVec T) [] := by
  refine ⟨rfl, le_refl 0, rfl, ?_⟩
  intro i hi
  simp at hi

theorem pop_concat {T : Type} {v : SimpleVec T} {l : List T} {x : T}
    (hc : HasContents v (l ++ [x])) :
    SimpleVec.pop v = (some x, { v with len := l.length }) ∧
      HasContents { v with len := l.length } l := by
  obtain ⟨hlen, hle, hdata, hread⟩ := hc
  simp only [List.length_append, List.length_cons, List.length_nil] at hlen
  constructor
  · unfold SimpleVec.pop
    rw [if_neg (by omega)]
    have : readSlot v.data (v.len - 1) = some x := by
      rw [hlen]
      show readSlot v.data (l.length + 1 - 1) = some x
      rw [Nat.add_sub_cancel, hread l.length (by simp), List.getElem?_concat_length]
    rw [this]
    have h2 : v.len - 1 = l.length := by omega
    rw [h2]
  · refine ⟨rfl, by simp; omega, hdata, ?_⟩
    intro i hi
    rw [hread i (by simp; omega), List.getElem?_append_left hi]

theorem pop_nil {T : Type} {v : SimpleVec T} (hc : HasContents v []) :
    SimpleVec.pop v = (none, v) := by
  unfold SimpleVec.pop
  rw [if_pos (by simpa using hc.1)]

theorem len_zero_eta {T : Type} {v : SimpleVec T} (h : v.len = 0) :
    ({ v with len := 0 } : SimpleVec T) = v := by
  cases v
  simp at h
  simp [h]

theorem popN_contents {T : Type} {l : List T} : ∀ {v : SimpleVec T}, HasContents v l →
    popN v (l.length + 1) = (l.reverse.map some ++ [none], { v with len := 0 }) := by
  induction l using List.reverseRecOn with
  | nil =>
      intro v hc
      have hp := pop_nil hc
      have he := len_zero_eta (by simpa using hc.1)
      simp [popN, hp, he]
  | append_singleton l x ih =>
      intro v hc
      obtain ⟨hpop, hc'⟩ := pop_concat hc
      have ihh := ih hc'
      simp [popN, hpop, ihh]

theorem popLoop_contents {T : Type} {l : List T} : ∀ {v : SimpleVec T}, HasContents v l →
    SimpleVec.popLoop l.length v = (l.reverse, { v with len := 0 }) := by
  induction l using List.reverseRecOn with
  | nil =>
      intro v hc
      have he := len_zero_eta (by simpa using hc.1)
      simp [SimpleVec.popLoop, he]
  | append_singleton l x ih =>
      intro v hc
      obtain ⟨hpop, hc'⟩ := pop_concat hc
      have ihh := ih hc'
      simp only [List.length_append, List.length_cons, List.length_nil, Nat.add_zero]
      simp [SimpleVec.popLoop, hpop, ihh]

theorem push_ok_cases {T : Type} {Al : Allocator} {sz al : Nat} {v v' : SimpleVec T} {x : T}
    (h : SimpleVec.push Al sz al v x = Except.ok v') :
    ∃ v1, (v.len = v.capacity ∧ SimpleVec.grow Al sz al v = Except.ok v1 ∨
        v.len ≠ v.capacity ∧ v1 = v) ∧
      v' = { v1 with data := writeSlot v1.data v1.len x, len := v1.len + 1 } := by
  unfold SimpleVec.push at h
  by_cases hfull : v.len = v.capacity
  · rw [if_pos hfull] at h
    cases hg : SimpleVec.grow Al sz al v with
    | error e => rw [hg] at h; simp at h
    | ok v1 =>
        rw [hg] at h
        refine ⟨v1, Or.inl ⟨hfull, ?_⟩, ?_⟩
        · exact hg ▸ rfl
        · exact (Except.ok.inj h).symm
  · rw [if_neg hfull] at h
    refine ⟨v, Or.inr ⟨hfull, rfl⟩, ?_⟩
    exact (Except.ok.inj h).symm

/-! The claims. -/

/-- C1: LIFO round-trip — for every sequence of values `v1..vn` pushed in
order into a buffer created by `new()`, calling `pop()` `n` times returns
`Some(vn), …, Some(v1)` in that order, and the `(n+1)`-th `pop()` returns
`None`. -/
theorem SimpleVec.lifo_round_trip {T : Type} (Al : Allocator) (sz al : Nat)
    (vs : List T) (v : SimpleVec T)
    (h : pushAll Al sz al (SimpleVec.new al) vs = Except.ok v) :
    (popN v (vs.length + 1)).1 = vs.reverse.map some ++ [none] := by
  have hc : HasContents v ([] ++ vs) := pushAll_contents (new_contents al) h
  rw [popN_contents (by simpa using hc)]

/-- C2: growth contract — when `push` finds `len == capacity` it calls
`grow`; a successful `grow` sets the capacity to `1` if it was `0` and to
exactly twice the old capacity otherwise, leaves `len` unchanged, and
preserves all `len` live slots unchanged in value and relative order. -/
theorem SimpleVec.grow_contract {T : Type} (Al : Allocator) (sz al : Nat)
    (v v' : SimpleVec T) (x : T)
    (hlen : v.len ≤ v.capacity) (hdata : v.data.length = v.capacity)
    (hg : SimpleVec.grow Al sz al v = Except.ok v') :
    v'.capacity = (if v.capacity = 0 then 1 else v.capacity * 2) ∧
      v'.len = v.len ∧
      (∀ i, i < v.len → readSlot v'.data i = readSlot v.data i) ∧
      (v.len = v.capacity →
        SimpleVec.push Al sz al v x =
          Except.ok { v' with data := writeSlot v'.data v'.len x, len := v'.len + 1 }) := by
  obtain ⟨hcap, hl, hd⟩ := grow_ok_fields hg
  refine ⟨hcap, hl, grow_ok_read hlen hdata hg, ?_⟩
  intro hfull
  unfold SimpleVec.push
  rw [if_pos hfull, hg]

/-- C3: teardown — dropping a buffer holding the values of `l` (bottom
first) pops and destructs the live elements until empty, last-to-first, so
each is destructed exactly once; then it releases the backing block
exactly once, using the layout for the current capacity, if and only if
the capacity is nonzero. -/
theorem SimpleVec.teardown_contract {T : Type} (sz al : Nat) (v : SimpleVec T)
    (l : List T) (hc : HasContents v l)
    (hlay : v.capacity ≠ 0 → layoutArray sz al v.capacity = some (sz * v.capacity)) :
    SimpleVec.dropVec sz al v =
      Except.ok ⟨l.reverse, { v with len := 0 },
        if v.capacity = 0 then none else some (v.ptr, sz * v.capacity, al)⟩ := by
  unfold SimpleVec.dropVec
  have hloop : SimpleVec.popLoop v.len v = (l.reverse, { v with len := 0 }) := by
    rw [hc.1]
    exact popLoop_contents hc
  rw [hloop]
  by_cases hc0 : v.capacity = 0
  · simp [hc0]
  · simp [hc0, hlay hc0]

/-- C4: invariant preservation — `0 ≤ length ≤ capacity` holds in every
state reachable from `new()` by `push`, `pop` and `grow` (and hence under
`get`, `len` and teardown, which only pop). -/
theorem SimpleVec.reach_len_le_capacity {T : Type} (Al : Allocator) (sz al : Nat)
    (v : SimpleVec T) (h : Reach Al sz al v) : 0 ≤ v.len ∧ v.len ≤ v.capacity := by
  refine ⟨Nat.zero_le _, ?_⟩
  induction h with
  | new => exact Nat.le_refl 0
  | push v v' x hr heq ih =>
      obtain ⟨v1, hcase, rfl⟩ := push_ok_cases heq
      rcases hcase with ⟨hfull, hg⟩ | ⟨hne, rfl⟩
      · obtain ⟨hcap, hl, -⟩ := grow_ok_fields hg
        have hlt := capacity_lt_newCapacity v
        show v1.len + 1 ≤ v1.capacity
        omega
      · show v1.len + 1 ≤ v1.capacity
        omega
  | grow v v' hr heq ih =>
      obtain ⟨hcap, hl, -⟩ := grow_ok_fields heq
      have hlt := capacity_lt_newCapacity v
      omega
  | pop v hr ih =>
      by_cases h0 : v.len = 0
      · simp [SimpleVec.pop, h0]
      · simp only [SimpleVec.pop, h0, if_false]
        show v.len - 1 ≤ v.capacity
        omega

/-- C5: index validity — on a buffer holding the values of `l` (bottom
first), `get i` returns the value logically at position `i` (the
`(i+1)`-th live value from the bottom) for every `i < len`, and `None` for
every `i ≥ len`; `get` is a pure function of the state (no mutation, no
panic path). -/
theorem SimpleVec.get_index_validity {T : Type} (v : SimpleVec T) (l : List T)
    (hc : HasContents v l) (i : Nat) : SimpleVec.get v i = l[i]? := by
  unfold SimpleVec.get
  by_cases hi : i < v.len
  · rw [if_pos hi]
    exact hc.2.2.2 i (hc.1 ▸ hi)
  · rw [if_neg hi, eq_comm]
    exact List.getElem?_eq_none (by have h1 := hc.1; omega)

/-- C6: capacity overflow — whenever the byte size `sz * new_capacity` of
the requested growth overflows `usize`, `grow` aborts with the
capacity-overflow panic (the `unwrap` of the failed layout), before any
allocator call and with the buffer unchanged: the size computation never
silently wraps into an undersized allocation. -/
theorem SimpleVec.grow_capacity_overflow {T : Type} (Al : Allocator) (sz al : Nat)
    (v : SimpleVec T) (h : usizeMax < sz * v.newCapacity) :
    SimpleVec.grow Al sz al v = Except.error (VecError.capacityOverflow, v) := by
  have hnone : layoutArray sz al v.newCapacity = none := by
    unfold layoutArray
    rw [if_neg]
    have h1 : isizeMax < usizeMax := by decide
    have h2 : isizeMax - (al - 1) ≤ isizeMax := Nat.sub_le _ _
    omega
  unfold SimpleVec.grow
  rw [hnone]

/-- C7: allocation failure — if the allocator returns a null result during
the initial acquire (`alloc`, when `capacity == 0`) or during `realloc`,
`grow` aborts with the allocation-failure panic and the buffer's `ptr`,
`len` and `capacity` fields are unchanged at the abort point (the error
carries the untouched state `v`). -/
theorem SimpleVec.grow_allocation_failure {T : Type} (Al : Allocator) (sz al ns : Nat)
    (v : SimpleVec T)
    (hnew : layoutArray sz al v.newCapacity = some ns)
    (hold : v.capacity ≠ 0 → layoutArray sz al v.capacity = some (sz * v.capacity))
    (hnull : (if v.capacity = 0 then Al.alloc ns al
        else Al.realloc v.ptr (sz * v.capacity) al ns) = 0) :
    SimpleVec.grow Al sz al v = Except.error (VecError.allocationFailure, v) := by
  by_cases hc : v.capacity = 0
  · have hnull2 : Al.alloc ns al = 0 := by simpa [hc] using hnull
    simp [SimpleVec.grow, SimpleVec.growAlloc, hnew, hc, hnull2]
  · have hnull2 : Al.realloc v.ptr (sz * v.capacity) al ns = 0 := by simpa [hc] using hnull
    simp [SimpleVec.grow, SimpleVec.growAlloc, hnew, hc, hold hc, hnull2]

/-- C8: empty access is recoverable — `pop` on an empty buffer returns
`None` and the state unchanged, and `get i` with `i ≥ len` returns `None`;
neither has a panic path in the source. -/
theorem SimpleVec.empty_access_recoverable {T : Type} (v : SimpleVec T) :
    (v.len = 0 → SimpleVec.pop v = (none, v)) ∧
      (∀ i, v.len ≤ i → SimpleVec.get v i = none) := by
  constructor
  · intro h0
    unfold SimpleVec.pop
    rw [if_pos h0]
  · intro i hi
    unfold SimpleVec.get
    rw [if_neg (by omega)]

/-- C9: pop never deallocates — `pop` makes no allocator call (it does not
even receive the allocator), leaves `capacity`, `ptr` and every slot of
the backing block unchanged, changes only `len` (by one when nonempty),
and the only slot it reads is the popped one. -/
theorem SimpleVec.pop_frame {T : Type} (v : SimpleVec T) :
    v.pop.2.capacity = v.capacity ∧ v.pop.2.ptr = v.ptr ∧ v.pop.2.data = v.data ∧
      v.pop.2.len = v.len - 1 ∧
      (v.len ≠ 0 → v.pop.1 = readSlot v.data (v.len - 1)) := by
  unfold SimpleVec.pop
  by_cases h0 : v.len = 0
  · rw [if_pos h0]
    exact ⟨rfl, rfl, rfl, by show v.len = v.len - 1; omega, fun h => absurd h0 h⟩
  · rw [if_neg h0]
    exact ⟨rfl, rfl, rfl, rfl, fun h => rfl⟩

/-- C10: push without growth — on a buffer with `len < capacity`, `push`
performs no allocator call (the result is the same for every allocator),
leaves `capacity` and `ptr` unchanged, writes the new element into slot
`len` and increments `len` by exactly one. -/
theorem SimpleVec.push_frame {T : Type} (Al Al' : Allocator) (sz al : Nat)
    (v : SimpleVec T) (x : T) (h : v.len < v.capacity) :
    SimpleVec.push Al sz al v x =
        Except.ok { v with data := writeSlot v.data v.len x, len := v.len + 1 } ∧
      SimpleVec.push Al sz al v x = SimpleVec.push Al' sz al v x := by
  have hne : v.len ≠ v.capacity := Nat.ne_of_lt h
  have key : ∀ A : Allocator, SimpleVec.push A sz al v x =
      Except.ok { v with data := writeSlot v.data v.len x, len := v.len + 1 } := by
    intro A
    unfold SimpleVec.push
    rw [if_neg hne]
  exact ⟨key Al, (key Al).trans (key Al').symm⟩

/-! Concrete instances for the claims: a well-behaved test allocator, a
failing one, and some buffer states produced by runs from `new()` with
element size and alignment 8 (as for `i64`/`usize` elements). -/

/-- Test allocator that always succeeds: fresh blocks at address 100,
reallocation moves the block up by one. -/
def testAlloc : Allocator :=
  { alloc := fun _ _ => 100, realloc := fun p _ _ _ => p + 1 }

/-- Second test allocator with different addresses, to witness allocator
independence. -/
def testAlloc2 : Allocator :=
  { alloc := fun _ _ => 500, realloc := fun p _ _ _ => p + 7 }

/-- Allocator whose calls all fail (return the null address). -/
def nullAlloc : Allocator :=
  { alloc := fun _ _ => 0, realloc := fun _ _ _ _ => 0 }

/-- State after pushing `5` once from `new()` under `testAlloc`. -/
def vecOne : SimpleVec Nat := { ptr := 100, data := [some 5], len := 1, capacity := 1 }

/-- State after pushing `1, 2, 3` from `new()` under `testAlloc`. -/
def vecThree : SimpleVec Nat :=
  { ptr := 102, data := [some 1, some 2, some 3, none], len := 3, capacity := 4 }

/-- State after pushing `1, 2, 3, 4, 5` from `new()` under `testAlloc`. -/
def vecFive : SimpleVec Nat :=
  { ptr := 103,
    data := [some 1, some 2, some 3, some 4, some 5, none, none, none],
    len := 5, capacity := 8 }

/-- Result of the first `grow` from `new()` under `testAlloc`. -/
def vecEmptyOne : SimpleVec Nat := { ptr := 100, data := [none], len := 0, capacity := 1 }

/-- A buffer whose doubled capacity overflows the byte-size computation
for an element size of `2 ^ 40` bytes. -/
def vecHuge : SimpleVec Nat := { ptr := 1, data := [], len := 0, capacity := 2 ^ 25 }

theorem lifo_round_trip_witness :
    (popN vecThree (([1, 2, 3] : List Nat).length + 1)).1 =
      ([1, 2, 3] : List Nat).reverse.map some ++ [none] :=
  SimpleVec.lifo_round_trip testAlloc 8 8 [1, 2, 3] vecThree rfl

theorem grow_contract_witness :
    vecEmptyOne.capacity =
        (if (SimpleVec.new 8 : SimpleVec Nat).capacity = 0 then 1
          else (SimpleVec.new 8 : SimpleVec Nat).capacity * 2) ∧
      vecEmptyOne.len = (SimpleVec.new 8 : SimpleVec Nat).len ∧
      (∀ i, i < (SimpleVec.new 8 : SimpleVec Nat).len →
        readSlot vecEmptyOne.data i = readSlot (SimpleVec.new 8 : SimpleVec Nat).data i) ∧
      ((SimpleVec.new 8 : SimpleVec Nat).len = (SimpleVec.new 8 : SimpleVec Nat).capacity →
        SimpleVec.push testAlloc 8 8 (SimpleVec.new 8) 7 =
          Except.ok { vecEmptyOne with
            data := writeSlot vecEmptyOne.data vecEmptyOne.len 7,
            len := vecEmptyOne.len + 1 }) :=
  SimpleVec.grow_contract testAlloc 8 8 (SimpleVec.new 8) vecEmptyOne 7
    (by decide) (by decide) rfl

theorem teardown_contract_witness :
    SimpleVec.dropVec 8 8 vecThree =
      Except.ok ⟨([1, 2, 3] : List Nat).reverse, { vecThree with len := 0 },
        if vecThree.capacity = 0 then none else some (vecThree.ptr, 8 * vecThree.capacity, 8)⟩ :=
  SimpleVec.teardown_contract 8 8 vecThree [1, 2, 3]
    ⟨rfl, by decide, rfl, by decide⟩ (by decide)

theorem reach_len_le_capacity_witness : 0 ≤ vecOne.len ∧ vecOne.len ≤ vecOne.capacity :=
  SimpleVec.reach_len_le_capacity testAlloc 8 8 vecOne
    (Reach.push (SimpleVec.new 8) vecOne 5 Reach.new rfl)

theorem get_index_validity_witness :
    SimpleVec.get vecFive 2 = ([1, 2, 3, 4, 5] : List Nat)[2]? ∧
      SimpleVec.get vecFive 9 = ([1, 2, 3, 4, 5] : List Nat)[9]? :=
  ⟨SimpleVec.get_index_validity vecFive [1, 2, 3, 4, 5] ⟨rfl, by decide, rfl, by decide⟩ 2,
    SimpleVec.get_index_validity vecFive [1, 2, 3, 4, 5] ⟨rfl, by decide, rfl, by decide⟩ 9⟩

theorem grow_capacity_overflow_witness :
    SimpleVec.grow testAlloc (2 ^ 40) 8 vecHuge =
      Except.error (VecError.capacityOverflow, vecHuge) :=
  SimpleVec.grow_capacity_overflow testAlloc (2 ^ 40) 8 vecHuge (by decide)

theorem grow_allocation_failure_witness :
    SimpleVec.grow nullAlloc 8 8 (SimpleVec.new 8 : SimpleVec Nat) =
      Except.error (VecError.allocationFailure, SimpleVec.new 8) :=
  SimpleVec.grow_allocation_failure nullAlloc 8 8 8 (SimpleVec.new 8)
    (by decide) (by decide) (by decide)

theorem empty_access_recoverable_witness :
    SimpleVec.pop (SimpleVec.new 8 : SimpleVec Nat) = (none, SimpleVec.new 8) ∧
      SimpleVec.get (SimpleVec.new 8 : SimpleVec Nat) 3 = none :=
  ⟨(SimpleVec.empty_access_recoverable (SimpleVec.new 8)).1 rfl,
    (SimpleVec.empty_access_recoverable (SimpleVec.new 8)).2 3 (by decide)⟩

theorem pop_frame_witness :
    vecThree.pop.2.capacity = vecThree.capacity ∧ vecThree.pop.2.ptr = vecThree.ptr ∧
      vecThree.pop.2.data = vecThree.data ∧ vecThree.pop.2.len = vecThree.len - 1 ∧
      vecThree.pop.1 = readSlot vecThree.data (vecThree.len - 1) :=
  ⟨(SimpleVec.pop_frame vecThree).1, (SimpleVec.pop_frame vecThree).2.1,
    (SimpleVec.pop_frame vecThree).2.2.1, (SimpleVec.pop_frame vecThree).2.2.2.1,
    (SimpleVec.pop_frame vecThree).2.2.2.2 (by decide)⟩

theorem push_frame_witness :
    SimpleVec.push testAlloc 8 8 vecThree 9 =
        Except.ok { vecThree with
          data := writeSlot vecThree.data vecThree.len 9, len := vecThree.len + 1 } ∧
      SimpleVec.push testAlloc 8 8 vecThree 9 = SimpleVec.push testAlloc2 8 8 vecThree 9 :=
  SimpleVec.push_frame testAlloc testAlloc2 8 8 vecThree 9 (by decide)
